import Mathlib

set_option maxRecDepth 8192

/-!
Verification of the songdl acquisition-and-transformation pipeline against its
specification.  The development shallowly embeds the relevant parts of
`src/song.rs`, `src/app.rs` and `src/command.rs`:

* Rust `String` / `&str` values are lists of Unicode code points (`Str`);
* raw byte payloads (`Vec<u8>`) are lists of naturals (`Bytes`);
* `f32` values are modeled exactly by `F`: a rational together with the IEEE
  special values NaN, +Inf and -Inf, which arise in this code base from the
  NaN-seeded fold in `Song::update_audio_frames` and from the unguarded
  division by the global chunk maximum (0/0 = NaN, x/0 = ±Inf).  Rounding of
  f32 arithmetic is not modeled; every concrete input used below is exactly
  representable and exactly computed in f32.
* external tools (ffmpeg, yt-dlp, the filesystem, the audio decoder) are
  oracles passed in as function parameters returning `Option`; `none` models
  the `Err`/panic outcome of the corresponding fallible call.
-/

namespace Songdl

/-- Strings as lists of Unicode code points (Rust `String` / `&str`). -/
abbrev Str := List Nat

/-- Code points of a Lean string literal, used to write embedded literals. -/
def strOf (s : String) : Str := s.toList.map Char.toNat

/-- Raw byte payloads (Rust `Vec<u8>`). -/
abbrev Bytes := List Nat

/-- Model of `f32`: exact rationals plus the IEEE special values that this
code base can produce (NaN from the NaN-seeded fold, ±Inf from division by
zero). -/
inductive F where
  | nan
  | posInf
  | negInf
  | fin (q : ℚ)
deriving DecidableEq

/-- Rust `f32::max`: returns the other argument when one argument is NaN. -/
def fmax : F → F → F
  | .nan, y => y
  | x, .nan => x
  | .posInf, _ => .posInf
  | _, .posInf => .posInf
  | .negInf, y => y
  | x, .negInf => x
  | .fin a, .fin b => .fin (max a b)

/-- The closure `f_max` of `Song::update_audio_frames`:
`f.iter().cloned().fold(f32::NAN, f32::max)`. -/
def f_max (l : List F) : F := l.foldl fmax .nan

/-- IEEE `f32` division on the model.  Only the `fin`/`fin` case is reachable
in this development; signed zeros are not modeled. -/
def fdiv : F → F → F
  | .fin a, .fin b =>
    if b = 0 then (if a = 0 then .nan else if 0 < a then .posInf else .negInf)
    else .fin (a / b)
  | .nan, _ => .nan
  | _, .nan => .nan
  | .posInf, .posInf => .nan
  | .posInf, .negInf => .nan
  | .negInf, .posInf => .nan
  | .negInf, .negInf => .nan
  | .posInf, .fin b => if b < 0 then .negInf else .posInf
  | .negInf, .fin b => if b < 0 then .posInf else .negInf
  | .fin _, .posInf => .fin 0
  | .fin _, .negInf => .fin 0

/-- Fuel-driven worker for `rustReplace`; the fuel (initially the haystack
length) only serves to make the recursion structural, each step consumes at
least one haystack element. -/
def rustReplaceAux (ned rep : Str) : Nat → Str → Str
  | _, [] => []
  | 0, hay => hay
  | fuel+1, h :: t =>
    if ned.isPrefixOf (h :: t) && !ned.isEmpty then
      rep ++ rustReplaceAux ned rep fuel ((h :: t).drop ned.length)
    else
      h :: rustReplaceAux ned rep fuel t

/-- Rust `str::replace(needle, replacement)`: replace every non-overlapping
occurrence, scanning left to right.  All needles occurring in this code base
are non-empty (the empty-needle behavior of Rust is not modeled). -/
def rustReplace (hay ned rep : Str) : Str := rustReplaceAux ned rep hay.length hay

/-- `app.rs::remove_characters`: delete every occurrence of each listed
pattern, one pattern after the other. -/
def removeCharacters (s : Str) (cs : List Str) : Str :=
  cs.foldl (fun acc c => rustReplace acc c []) s

/-- One code point of Rust `str::to_ascii_lowercase`: ASCII `A`..`Z` is
shifted to `a`..`z`, every other code point is left unchanged. -/
def asciiLower (n : Nat) : Nat := if 65 ≤ n ∧ n ≤ 90 then n + 32 else n

/-- Rust `str::find(pat).is_some()`: does `pat` occur as a contiguous
substring of `hay`? -/
def strContains (hay pat : Str) : Bool := hay.tails.any (fun t => pat.isPrefixOf t)

/-- Whitespace test used by `str::trim`; the code points relevant here are
space, tab, line feed and carriage return (Rust additionally trims the rare
Unicode space characters, which no claim depends on). -/
def isWhitespaceCp (n : Nat) : Bool := n == 32 || n == 9 || n == 10 || n == 13

/-- Rust `str::trim`: drop leading and trailing whitespace. -/
def trimStr (s : Str) : Str :=
  ((s.dropWhile isWhitespaceCp).reverse.dropWhile isWhitespaceCp).reverse

/-- Minimal model of `serde_json::Value` covering the constructors this code
base reads and writes: JSON strings, objects and null. -/
inductive JValue where
  | null
  | str (s : Str)
  | obj (fields : List (Str × JValue))

mutual

/-- `serde_json::Value::to_string` on the model: 34 is the double quote,
58 the colon, 44 the comma, 123/125 the braces.  (String escaping and the
key ordering of serde's map are not modeled; no claim depends on them.) -/
def JValue.render : JValue → Str
  | .null => strOf ("null")
  | .str s => 34 :: (s ++ [34])
  | .obj l => 123 :: (JValue.renderFields l ++ [125])

/-- Rendering of the field list of a JSON object. -/
def JValue.renderFields : List (Str × JValue) → Str
  | [] => []
  | (k, v) :: rest =>
    (34 :: (k ++ [34])) ++ (58 :: JValue.render v)
      ++ (if rest.isEmpty then [] else [44]) ++ JValue.renderFields rest

end

/-- `serde_json::Value::get(field)`: field lookup, objects only. -/
def JValue.get? : JValue → Str → Option JValue
  | .obj l, f => l.lookup f
  | _, _ => none

/-- `app.rs::json_read`: `json.get(field).unwrap_or(&json!("")).to_string()
.replace("\"", "")`. -/
def jsonRead (json : JValue) (field : Str) : Str :=
  rustReplace (((json.get? field).getD (JValue.str [])).render) [34] []

/-- The noisy keys stripped by `Song::update_metadata_from_json` before any
field is read. -/
def noisyKeys : List Str :=
  [strOf ("requested_formats"), strOf ("thumbnails"), strOf ("url"), strOf ("urls"),
    strOf ("fragments"), strOf ("formats"), strOf ("automatic_captions")]

/-- The `json.remove(f)` loop of `Song::update_metadata_from_json`: drop every
noisy key from the object (serde's map has unique keys, so repeated `remove`
is a filter). -/
def cleanJson : JValue → JValue
  | .obj l => .obj (l.filter (fun p => !(noisyKeys.contains p.1)))
  | j => j

/-- Fuel-driven worker for `chunksExact`; the fuel (initially the list
length) only makes the recursion structural, each step consumes `k ≥ 1`
elements. -/
def chunksExactAux (k : Nat) : Nat → List ℚ → List (List ℚ)
  | 0, _ => []
  | fuel+1, l =>
    if 0 < k ∧ k ≤ l.length then l.take k :: chunksExactAux k fuel (l.drop k) else []

/-- Rust `slice::chunks_exact(k)` for `k ≥ 1`: the maximal list of contiguous
`k`-element chunks; up to `k - 1` trailing elements are dropped.
`chunks_exact(0)` panics in Rust; the call site models that panic. -/
def chunksExact (k : Nat) (l : List ℚ) : List (List ℚ) := chunksExactAux k l.length l

/-- `song.rs::Origin`. -/
inductive Origin where
  | YouTube
  | Soundcloud
  | Local
  | Unknown
deriving DecidableEq

/-- `Origin::link_component`. -/
def Origin.linkComponent : Origin → Str
  | .YouTube => strOf ("youtube.")
  | .Soundcloud => strOf ("soundcloud.")
  | _ => []

/-- `Origin::from_link`.  The filesystem is an oracle: `pathExists link`
models `PathBuf::from(link).exists()`. -/
def Origin.fromLink (pathExists : Str → Bool) (link : Str) : Origin :=
  if strContains link (Origin.linkComponent .YouTube) then .YouTube
  else if strContains link (Origin.linkComponent .Soundcloud) then .Soundcloud
  else if pathExists link then .Local
  else .Unknown

/-- `song.rs::WAVEFORM_LENGTH`. -/
def WAVEFORM_LENGTH : Nat := 230

/-- The payload of the `Waveform` tuple struct (`[f32; WAVEFORM_LENGTH]`);
`Waveform.new` is the only producer of values of the right length. -/
abbrev Waveform := List F

/-- `Waveform::new`: `values.try_into().unwrap_or([0.; WAVEFORM_LENGTH])` —
a vector of any length other than 230 is silently replaced by all zeros. -/
def Waveform.new (values : List F) : Waveform :=
  if values.length = WAVEFORM_LENGTH then values else List.replicate WAVEFORM_LENGTH (F.fin 0)

/-- `song.rs::Song`.  `cover_texture_handle` carries no data relevant to any
claim and is modeled as `Option Unit`; `audio_frames` holds the decoded
stereo frames of a `StaticSoundData`. -/
structure Song where
  title : Str
  artist : Str
  album : Str
  album_artist : Str
  composer : Str
  audio_bytes : Bytes
  cover_bytes : Bytes
  source_url : Str
  volume : ℚ
  cover_texture_handle : Option Unit
  audio_frames : Option (List (ℚ × ℚ))
  waveform : Waveform
deriving DecidableEq

/-- `Song::default()` (all strings and byte vectors empty, volume 0, no
decoded frames, all-zero waveform). -/
def defaultSong : Song where
  title := []
  artist := []
  album := []
  album_artist := []
  composer := []
  audio_bytes := []
  cover_bytes := []
  source_url := []
  volume := 0
  cover_texture_handle := none
  audio_frames := none
  waveform := List.replicate WAVEFORM_LENGTH (F.fin 0)

/-- The mono downmix of `Song::update_audio_frames`:
`(f.left as f32 + f.right as f32) * 0.5` for each decoded frame. -/
def monoFrames (frames : List (ℚ × ℚ)) : List ℚ :=
  frames.map (fun f => (f.1 + f.2) * (1/2))

/-- The per-chunk fold of `Song::update_audio_frames`:
`mono_frames.chunks_exact(num_chunks).map(|c| f_max(c))` where
`num_chunks = mono_frames.len() / WAVEFORM_LENGTH` is used as the chunk
*size* despite its name. -/
def chunkPeaks (mono : List ℚ) : List F :=
  (chunksExact (mono.length / WAVEFORM_LENGTH) mono).map (fun c => f_max (c.map F.fin))

/-- The normalization loop of `Song::update_audio_frames`: the global maximum
is computed once, before the in-place division of every element. There is no
guard against a zero (or negative, or NaN) global maximum. -/
def normalizePeaks (peaks : List F) : List F :=
  peaks.map (fun s => fdiv s (f_max peaks))

/-- The waveform portion of `Song::update_audio_frames` given the decoded
frames: `none` models the panic of `chunks_exact(0)` which is reached
whenever the mono signal has fewer than `WAVEFORM_LENGTH` samples. -/
def analyzeWaveform (frames : List (ℚ × ℚ)) : Option Waveform :=
  if (monoFrames frames).length / WAVEFORM_LENGTH = 0 then none
  else some (Waveform.new (normalizePeaks (chunkPeaks (monoFrames frames))))

/-- `Song::update_audio_frames`.  `decode` is the
`StaticSoundData::from_cursor` oracle: `none` is a decode error.  On success
the decoded frames and the freshly computed waveform are stored. -/
def Song.updateAudioFrames (decode : Bytes → Option (List (ℚ × ℚ))) (s : Song) : Option Song :=
  (decode s.audio_bytes).bind fun frames =>
    (analyzeWaveform frames).map fun w =>
      { s with audio_frames := some frames, waveform := w }

/-- `Song::update_current_volume`.  `getAverageVolume` is the
`command.rs::get_average_volume` oracle (ffmpeg volumedetect). -/
def Song.updateCurrentVolume (getAverageVolume : Bytes → Option ℚ) (s : Song) : Option Song :=
  (getAverageVolume s.audio_bytes).map fun v => { s with volume := v }

/-- `Song::apply_volume_offset`.  `applyOffsetTool` is the
`command.rs::apply_volume_offset` oracle (ffmpeg re-encode with a gain
filter). -/
def Song.applyVolumeOffset (applyOffsetTool : Bytes → ℚ → Option Bytes)
    (getAverageVolume : Bytes → Option ℚ) (decode : Bytes → Option (List (ℚ × ℚ)))
    (offset : ℚ) (s : Song) : Option Song :=
  (applyOffsetTool s.audio_bytes offset).bind fun newBytes =>
    (Song.updateCurrentVolume getAverageVolume { s with audio_bytes := newBytes }).bind fun s1 =>
      Song.updateAudioFrames decode s1

/-- `Song::trim` (called by `generate_metadata_tuples`): trims title, artist
and album in place. -/
def Song.trimFields (s : Song) : Song :=
  { s with title := trimStr s.title, artist := trimStr s.artist, album := trimStr s.album }

/-- `Song::generate_metadata_tuples`: mutates `self` via `trim`, then builds
the (title, artist, album) tag list; both results are returned. -/
def Song.generateMetadataTuples (s : Song) : Song × List (Str × Str) :=
  (s.trimFields,
    [(strOf ("title"), s.trimFields.title),
      (strOf ("artist"), s.trimFields.artist),
      (strOf ("album"), s.trimFields.album)])

/-- `Song::update_bytes_from_metadata`.  `writeMetadata` and `writeCover` are
the `command.rs::write_metadata_to_audio` / `write_cover_to_audio` oracles.
The returned flag is `none` exactly when the Rust function returns `Err`
(the `?` on either stage); the returned `Song` is the state of `self` at
that point. -/
def Song.updateBytesFromMetadata (writeMetadata : Bytes → List (Str × Str) → Option Bytes)
    (writeCover : Bytes → Bytes → Option Bytes) (s : Song) : Song × Option Unit :=
  let p := s.generateMetadataTuples
  match writeMetadata p.1.audio_bytes p.2 with
  | none => (p.1, none)
  | some withMetadata =>
    match writeCover withMetadata p.1.cover_bytes with
    | none => (p.1, none)
    | some withCover => ({ p.1 with audio_bytes := withCover }, some ())

/-- `Song::update_metadata_from_json`: on an object, strip the noisy keys,
then `set_if_exists` for `title`, then `artist`, then `uploader` (the last
two both target the artist field); a non-object leaves the song unchanged. -/
def Song.updateMetadataFromJson (s : Song) (json : JValue) : Song :=
  match json with
  | JValue.obj fields =>
    let cleaned := cleanJson (JValue.obj fields)
    let v1 := jsonRead cleaned (strOf ("title"))
    let s1 := if v1.isEmpty then s else { s with title := v1 }
    let v2 := jsonRead cleaned (strOf ("artist"))
    let s2 := if v2.isEmpty then s1 else { s1 with artist := v2 }
    let v3 := jsonRead cleaned (strOf ("uploader"))
    if v3.isEmpty then s2 else { s2 with artist := v3 }
  | _ => s

/-- The hazardous characters removed by `Song::write_to_disk`:
`/ * : ? " < > |`. -/
def hazardChars : List Str :=
  [strOf ("/"), strOf ("*"), strOf (":"), strOf ("?"), strOf ("\""), strOf ("<"),
    strOf (">"), strOf ("|")]

/-- The filename derivation of `Song::write_to_disk`:
`format!("{}_{}{}", title, artist, ".mp3").to_ascii_lowercase()
.replace(" ", "_")` followed by `remove_characters`.  The actual `fs::write`
is an external effect outside the model. -/
def Song.filename (s : Song) : Str :=
  removeCharacters
    (rustReplace ((s.title ++ [95] ++ s.artist ++ strOf (".mp3")).map asciiLower)
      (strOf (" ")) (strOf ("_")))
    hazardChars

/-- The fields of `app.rs::DownloaderState` that `App::update_state` touches,
plus the raw volume-offset text.  `loading` models
`Option<Promise<Result<Song>>>`: the outer option is the handle, the inner
option is promise readiness, `Except` is the job result. -/
structure DownloaderState where
  song : Song
  loading : Option (Option (Except Str Song))
  volume_offset : Str
  save_path : Str

/-- The `Ready::is_ready` check of `app.rs`: a handle exists and its promise
has resolved. -/
def isReady : Option (Option (Except Str Song)) → Bool
  | some (some _) => true
  | _ => false

/-- `App::update_state` restricted to the downloader state: when the loading
promise is ready it is taken (the handle is consumed either way), and the
displayed song is overwritten only by an `Ok` result. -/
def updateState (st : DownloaderState) : DownloaderState :=
  if isReady st.loading then
    match st.loading with
    | some (some (Except.ok song)) => { st with song := song, loading := none }
    | _ => { st with loading := none }
  else st

/-- The waveform claims speak about values "lying in the closed interval
[0,1]": a value satisfies this exactly when it is a finite rational between 0
and 1 (NaN and the infinities do not). -/
def inUnitRange : F → Bool
  | .fin q => decide (0 ≤ q ∧ q ≤ 1)
  | _ => false

/-- The per-chunk peaks of the downsampling algorithm as the specification
describes it (compare `chunkPeaks`): exactly `WAVEFORM_LENGTH` contiguous
chunks whose common size is the integer quotient of the sample count by
`WAVEFORM_LENGTH`, trailing remainder dropped, and for each chunk the maximum
absolute sample value. -/
def specChunkPeaks (frames : List (ℚ × ℚ)) : List ℚ :=
  (List.range WAVEFORM_LENGTH).map
    (fun i =>
      (((monoFrames frames).drop (i * ((monoFrames frames).length / WAVEFORM_LENGTH))).take
          ((monoFrames frames).length / WAVEFORM_LENGTH)).foldl (fun acc x => max acc |x|) 0)

/-- The full downsampling algorithm as the specification describes it
(compare `analyzeWaveform`): every chunk value divided by the global maximum
across all chunks. -/
def specWaveform (frames : List (ℚ × ℚ)) : List ℚ :=
  (specChunkPeaks frames).map (fun v => v / (specChunkPeaks frames).foldl max 0)

/-- Concrete decoded input: one frame at amplitude -1 followed by 229 frames
at amplitude +1 (230 mono samples, chunk size 1). -/
def cexFrames : List (ℚ × ℚ) := ((-1 : ℚ), (-1 : ℚ)) :: List.replicate 229 ((1 : ℚ), (1 : ℚ))

/-- The waveform the code computes on `cexFrames`. -/
def cexWave : Waveform := F.fin (-1) :: List.replicate 229 (F.fin 1)

/-- Concrete decoded input: 230 all-silent frames. -/
def silentFrames : List (ℚ × ℚ) := List.replicate 230 ((0 : ℚ), (0 : ℚ))

/-- Concrete decoded input: 5 all-silent frames (fewer than `WAVEFORM_LENGTH`
mono samples, so the chunk size computes to 0). -/
def shortSilentFrames : List (ℚ × ℚ) := List.replicate 5 ((0 : ℚ), (0 : ℚ))

/-- Concrete decoded input: 231 frames at amplitude +1 (one more mono sample
than `WAVEFORM_LENGTH`, chunk size 1, hence 231 chunks). -/
def longOnesFrames : List (ℚ × ℚ) := List.replicate 231 ((1 : ℚ), (1 : ℚ))

/-- Concrete decoded input: 230 frames at amplitude +1. -/
def onesFrames : List (ℚ × ℚ) := List.replicate 230 ((1 : ℚ), (1 : ℚ))

/-- Concrete oracle for witnesses: ffmpeg gain re-encode returning one byte. -/
def offsetOracle : Bytes → ℚ → Option Bytes := fun _ _ => some [7]

/-- Concrete oracle for witnesses: volume detection reporting -20 dB. -/
def volumeOracle : Bytes → Option ℚ := fun _ => some (-20)

/-- Concrete oracle for witnesses: decoder producing `onesFrames`. -/
def decodeOracle : Bytes → Option (List (ℚ × ℚ)) := fun _ => some onesFrames

/-- The song state expected after `applyVolumeOffset` under the concrete
oracles above, starting from `defaultSong`. -/
def offsetResultSong : Song :=
  { defaultSong with
    audio_bytes := [7]
    volume := -20
    audio_frames := some onesFrames
    waveform := List.replicate WAVEFORM_LENGTH (F.fin 1) }

/-- Concrete song for the metadata-merge witness: artist populated with "X". -/
def mergeSong : Song := { defaultSong with artist := strOf ("X") }

/-- Concrete metadata document for the metadata-merge witness: only a
non-empty `uploader` entry. -/
def mergeJson : JValue := JValue.obj [(strOf ("uploader"), JValue.str (strOf ("Y")))]

/-!  Helper lemmas. -/

theorem mem_rustReplaceAux {c : Nat} {ned rep : Str} :
    ∀ {fuel : Nat} {hay : Str}, c ∈ rustReplaceAux ned rep fuel hay → c ∈ hay ∨ c ∈ rep := by
  intro fuel
  induction fuel with
  | zero =>
    intro hay h
    cases hay with
    | nil => simp [rustReplaceAux] at h
    | cons a t => exact Or.inl (by simpa [rustReplaceAux] using h)
  | succ fuel ih =>
    intro hay h
    cases hay with
    | nil => simp [rustReplaceAux] at h
    | cons a t =>
      rw [rustReplaceAux] at h
      split at h
      · rcases List.mem_append.1 h with hr | hr
        · exact Or.inr hr
        · rcases ih hr with hh | hh
          · exact Or.inl (List.mem_of_mem_drop hh)
          · exact Or.inr hh
      · rcases List.mem_cons.1 h with rfl | hh
        · exact Or.inl (List.mem_cons_self _ _)
        · rcases ih hh with hh' | hh'
          · exact Or.inl (List.mem_cons_of_mem _ hh')
          · exact Or.inr hh'

theorem mem_rustReplace {c : Nat} {hay ned rep : Str} (h : c ∈ rustReplace hay ned rep) :
    c ∈ hay ∨ c ∈ rep :=
  mem_rustReplaceAux h

theorem notMem_rustReplaceAux_single {a : Nat} {rep : Str} (ha : a ∉ rep) :
    ∀ (fuel : Nat) (hay : Str), hay.length ≤ fuel → a ∉ rustReplaceAux [a] rep fuel hay := by
  intro fuel
  induction fuel with
  | zero =>
    intro hay hlen
    rw [List.length_eq_zero.1 (Nat.le_zero.1 hlen)]
    simp [rustReplaceAux]
  | succ fuel ih =>
    intro hay hlen
    cases hay with
    | nil => simp [rustReplaceAux]
    | cons h t =>
      rw [rustReplaceAux]
      by_cases hcond : ([a].isPrefixOf (h :: t) && !([a].isEmpty)) = true
      · rw [if_pos hcond]
        intro hmem
        rcases List.mem_append.1 hmem with hr | hr
        · exact ha hr
        · exact ih _ (by simp at hlen ⊢; omega) hr
      · rw [if_neg hcond]
        have hne : h ≠ a := by
          intro hha
          exact hcond (by simp [List.isPrefixOf, hha])
        intro hmem
        rcases List.mem_cons.1 hmem with rfl | hr
        · exact hne rfl
        · exact ih _ (by simp at hlen ⊢; omega) hr

theorem notMem_rustReplace_single {a : Nat} {hay rep : Str} (ha : a ∉ rep) :
    a ∉ rustReplace hay [a] rep :=
  notMem_rustReplaceAux_single ha hay.length hay (Nat.le_refl _)

theorem mem_removeCharacters {c : Nat} :
    ∀ {cs : List Str} {s : Str}, c ∈ removeCharacters s cs → c ∈ s := by
  intro cs
  induction cs with
  | nil => intro s h; simpa [removeCharacters] using h
  | cons p rest ih =>
    intro s h
    rw [removeCharacters, List.foldl_cons] at h
    rcases mem_rustReplace (ih h) with hh | hh
    · exact hh
    · simp at hh

theorem notMem_removeCharacters {b : Nat} :
    ∀ {cs : List Str} {s : Str}, [b] ∈ cs → b ∉ removeCharacters s cs := by
  intro cs
  induction cs with
  | nil => intro s h; simp at h
  | cons p rest ih =>
    intro s h
    rcases List.mem_cons.1 h with rfl | hmem
    · intro hb
      rw [removeCharacters, List.foldl_cons] at hb
      exact notMem_rustReplace_single (by simp) (mem_removeCharacters hb)
    · intro hb
      rw [removeCharacters, List.foldl_cons] at hb
      exact ih hmem hb

theorem asciiLower_not_upper (n : Nat) : ¬(65 ≤ asciiLower n ∧ asciiLower n ≤ 90) := by
  unfold asciiLower
  split <;> omega

theorem length_chunksExactAux {k : Nat} (hk : 0 < k) :
    ∀ (fuel : Nat) (l : List ℚ), l.length ≤ fuel →
      (chunksExactAux k fuel l).length = l.length / k := by
  intro fuel
  induction fuel with
  | zero =>
    intro l hlen
    rw [List.length_eq_zero.1 (Nat.le_zero.1 hlen)]
    simp [chunksExactAux]
  | succ fuel ih =>
    intro l hlen
    rw [chunksExactAux]
    by_cases hcond : 0 < k ∧ k ≤ l.length
    · rw [if_pos hcond]
      have hkl : k ≤ l.length := hcond.2
      have hdrop : (l.drop k).length ≤ fuel := by
        rw [List.length_drop]; omega
      rw [List.length_cons, ih _ hdrop, List.length_drop]
      rw [Nat.div_eq l.length k, if_pos ⟨hk, hkl⟩]
    · rw [if_neg hcond]
      have hlt : l.length < k := by
        by_contra hcon
        exact hcond ⟨hk, Nat.le_of_not_lt hcon⟩
      simp [Nat.div_eq_of_lt hlt]

theorem length_chunksExact {k : Nat} (hk : 0 < k) (l : List ℚ) :
    (chunksExact k l).length = l.length / k :=
  length_chunksExactAux hk l.length l (Nat.le_refl _)

theorem join_chunksExactAux {k : Nat} (hk : 0 < k) :
    ∀ (fuel : Nat) (l : List ℚ), l.length ≤ fuel →
      (chunksExactAux k fuel l).flatten = l.take (k * (l.length / k)) := by
  intro fuel
  induction fuel with
  | zero =>
    intro l hlen
    rw [List.length_eq_zero.1 (Nat.le_zero.1 hlen)]
    simp [chunksExactAux]
  | succ fuel ih =>
    intro l hlen
    rw [chunksExactAux]
    by_cases hcond : 0 < k ∧ k ≤ l.length
    · rw [if_pos hcond]
      have hkl : k ≤ l.length := hcond.2
      have hdrop : (l.drop k).length ≤ fuel := by
        rw [List.length_drop]; omega
      rw [List.flatten_cons, ih _ hdrop, List.length_drop]
      have hdiv : l.length / k = (l.length - k) / k + 1 := by
        rw [Nat.div_eq l.length k, if_pos ⟨hk, hkl⟩]
      rw [hdiv, Nat.mul_add, Nat.mul_one, Nat.add_comm (k * ((l.length - k) / k)) k,
        List.take_add]
    · rw [if_neg hcond]
      have hlt : l.length < k := by
        by_contra hcon
        exact hcond ⟨hk, Nat.le_of_not_lt hcon⟩
      simp [Nat.div_eq_of_lt hlt]

theorem join_chunksExact {k : Nat} (hk : 0 < k) (l : List ℚ) :
    (chunksExact k l).flatten = l.take (k * (l.length / k)) :=
  join_chunksExactAux hk l.length l (Nat.le_refl _)

theorem length_of_mem_chunksExactAux {k : Nat} {c : List ℚ} :
    ∀ {fuel : Nat} {l : List ℚ}, c ∈ chunksExactAux k fuel l → c.length = k := by
  intro fuel
  induction fuel with
  | zero => intro l h; simp [chunksExactAux] at h
  | succ fuel ih =>
    intro l h
    rw [chunksExactAux] at h
    split at h
    · rcases List.mem_cons.1 h with rfl | hmem
      · rw [List.length_take]; omega
      · exact ih hmem
    · simp at h

theorem length_of_mem_chunksExact {k : Nat} {c : List ℚ} {l : List ℚ}
    (h : c ∈ chunksExact k l) : c.length = k :=
  length_of_mem_chunksExactAux h

theorem chunksExactAux_one :
    ∀ (fuel : Nat) (l : List ℚ), l.length ≤ fuel →
      chunksExactAux 1 fuel l = l.map (fun x => [x]) := by
  intro fuel
  induction fuel with
  | zero =>
    intro l hlen
    rw [List.length_eq_zero.1 (Nat.le_zero.1 hlen)]
    simp [chunksExactAux]
  | succ fuel ih =>
    intro l hlen
    cases l with
    | nil => simp [chunksExactAux]
    | cons a t =>
      rw [chunksExactAux, if_pos (by simp)]
      simp only [List.take_succ_cons, List.take_zero, List.drop_succ_cons, List.drop_zero,
        List.map_cons]
      rw [ih t (by simpa using Nat.le_of_succ_le_succ (by simpa using hlen))]

theorem chunksExact_one (l : List ℚ) : chunksExact 1 l = l.map (fun x => [x]) :=
  chunksExactAux_one l.length l (Nat.le_refl _)

theorem foldl_fmax_fin_replicate (b : ℚ) :
    ∀ (n : Nat) (a : ℚ),
      List.foldl fmax (F.fin (max a b)) (List.replicate n (F.fin b)) = F.fin (max a b) := by
  intro n
  induction n with
  | zero => intro a; simp
  | succ n ih =>
    intro a
    rw [List.replicate_succ, List.foldl_cons]
    have hstep : fmax (F.fin (max a b)) (F.fin b) = F.fin (max a b) := by
      simp [fmax, max_assoc]
    rw [hstep, ih a]

theorem f_max_fin_cons_replicate (a b : ℚ) (n : Nat) :
    f_max (F.fin a :: List.replicate (n + 1) (F.fin b)) = F.fin (max a b) := by
  rw [f_max, List.foldl_cons, List.replicate_succ, List.foldl_cons]
  have h1 : fmax F.nan (F.fin a) = F.fin a := by simp [fmax]
  have h2 : fmax (F.fin a) (F.fin b) = F.fin (max a b) := by simp [fmax]
  rw [h1, h2, foldl_fmax_fin_replicate b n a]

theorem foldl_max_replicate (b : ℚ) :
    ∀ (n : Nat), List.foldl max b (List.replicate n b) = b := by
  intro n
  induction n with
  | zero => simp
  | succ n ih => rw [List.replicate_succ, List.foldl_cons, max_self, ih]

theorem lookup_filter_not_noisy {f : Str} (hf : f ∉ noisyKeys) :
    ∀ (fields : List (Str × JValue)),
      (fields.filter (fun p => !(noisyKeys.contains p.1))).lookup f = fields.lookup f := by
  intro fields
  induction fields with
  | nil => simp
  | cons p rest ih =>
    obtain ⟨k, v⟩ := p
    by_cases hk : k ∈ noisyKeys
    · have hfk : (f == k) = false := beq_eq_false_iff_ne.2 (fun h => hf (h ▸ hk))
      rw [List.filter_cons, if_neg (by simp [hk])]
      rw [ih, List.lookup_cons, hfk]
    · rw [List.filter_cons, if_pos (by simp [hk])]
      rw [List.lookup_cons, List.lookup_cons]
      cases hfk : (f == k) with
      | true => rfl
      | false => exact ih

theorem jsonRead_cleanJson {f : Str} (hf : f ∉ noisyKeys) (j : JValue) :
    jsonRead (cleanJson j) f = jsonRead j f := by
  cases j with
  | null => rfl
  | str s => rfl
  | obj fields =>
    rw [jsonRead, jsonRead, cleanJson]
    rw [show (JValue.obj (fields.filter (fun p => !(noisyKeys.contains p.1)))).get? f
        = (JValue.obj fields).get? f from by
      rw [JValue.get?, JValue.get?]
      exact lookup_filter_not_noisy hf fields]

theorem chunkPeaks_div_one {l : List ℚ} (h : l.length / WAVEFORM_LENGTH = 1) :
    chunkPeaks l = l.map (fun x => F.fin x) := by
  rw [chunkPeaks, h, chunksExact_one, List.map_map]
  refine List.map_congr_left ?_
  intro x _
  simp [Function.comp, f_max, fmax]

theorem f_max_replicate_fin (b : ℚ) (n : Nat) :
    f_max (List.replicate (n + 1) (F.fin b)) = F.fin b := by
  cases n with
  | zero => simp [f_max, fmax]
  | succ m =>
    rw [List.replicate_succ]
    rw [f_max_fin_cons_replicate b b m, max_self]

theorem monoFrames_cexFrames : monoFrames cexFrames = (-1 : ℚ) :: List.replicate 229 1 := by
  rw [cexFrames, monoFrames, List.map_cons, List.map_replicate]
  norm_num

theorem monoFrames_silentFrames : monoFrames silentFrames = List.replicate 230 (0 : ℚ) := by
  rw [silentFrames, monoFrames, List.map_replicate]
  norm_num

theorem monoFrames_onesFrames : monoFrames onesFrames = List.replicate 230 (1 : ℚ) := by
  rw [onesFrames, monoFrames, List.map_replicate]
  norm_num

theorem monoFrames_longOnesFrames : monoFrames longOnesFrames = List.replicate 231 (1 : ℚ) := by
  rw [longOnesFrames, monoFrames, List.map_replicate]
  norm_num

theorem analyzeWaveform_cexFrames : analyzeWaveform cexFrames = some cexWave := by
  have hm := monoFrames_cexFrames
  have hdiv : (monoFrames cexFrames).length / WAVEFORM_LENGTH = 1 := by
    rw [hm]; simp [WAVEFORM_LENGTH]
  have hpeaks : chunkPeaks (monoFrames cexFrames)
      = F.fin (-1) :: List.replicate 229 (F.fin 1) := by
    rw [chunkPeaks_div_one hdiv, hm, List.map_cons, List.map_replicate]
  have hfm : f_max (F.fin (-1) :: List.replicate 229 (F.fin 1)) = F.fin 1 := by
    rw [f_max_fin_cons_replicate (-1) 1 228]
    norm_num
  have hnorm : normalizePeaks (F.fin (-1) :: List.replicate 229 (F.fin 1)) = cexWave := by
    rw [normalizePeaks, hfm, List.map_cons, List.map_replicate, cexWave]
    norm_num [fdiv]
  rw [analyzeWaveform, if_neg (by rw [hdiv]; norm_num), hpeaks, hnorm]
  rw [Waveform.new, if_pos (by rw [cexWave]; simp [WAVEFORM_LENGTH])]

theorem analyzeWaveform_silentFrames :
    analyzeWaveform silentFrames = some (List.replicate WAVEFORM_LENGTH F.nan) := by
  have hm := monoFrames_silentFrames
  have hdiv : (monoFrames silentFrames).length / WAVEFORM_LENGTH = 1 := by
    rw [hm]; simp [WAVEFORM_LENGTH]
  have hpeaks : chunkPeaks (monoFrames silentFrames) = List.replicate 230 (F.fin 0) := by
    rw [chunkPeaks_div_one hdiv, hm, List.map_replicate]
  have hfm : f_max (List.replicate 230 (F.fin 0)) = F.fin 0 := f_max_replicate_fin 0 229
  have hnorm : normalizePeaks (List.replicate 230 (F.fin 0))
      = List.replicate 230 F.nan := by
    rw [normalizePeaks, hfm, List.map_replicate]
    norm_num [fdiv]
  rw [analyzeWaveform, if_neg (by rw [hdiv]; norm_num), hpeaks, hnorm]
  rw [Waveform.new, if_pos (by simp [WAVEFORM_LENGTH])]
  rw [show WAVEFORM_LENGTH = 230 from rfl]

theorem analyzeWaveform_shortSilentFrames : analyzeWaveform shortSilentFrames = none := by
  rw [analyzeWaveform, if_pos]
  rw [shortSilentFrames, monoFrames, List.map_replicate]
  simp [WAVEFORM_LENGTH]

theorem analyzeWaveform_onesFrames :
    analyzeWaveform onesFrames = some (List.replicate WAVEFORM_LENGTH (F.fin 1)) := by
  have hm := monoFrames_onesFrames
  have hdiv : (monoFrames onesFrames).length / WAVEFORM_LENGTH = 1 := by
    rw [hm]; simp [WAVEFORM_LENGTH]
  have hpeaks : chunkPeaks (monoFrames onesFrames) = List.replicate 230 (F.fin 1) := by
    rw [chunkPeaks_div_one hdiv, hm, List.map_replicate]
  have hfm : f_max (List.replicate 230 (F.fin 1)) = F.fin 1 := f_max_replicate_fin 1 229
  have hnorm : normalizePeaks (List.replicate 230 (F.fin 1))
      = List.replicate 230 (F.fin 1) := by
    rw [normalizePeaks, hfm, List.map_replicate]
    norm_num [fdiv]
  rw [analyzeWaveform, if_neg (by rw [hdiv]; norm_num), hpeaks, hnorm]
  rw [Waveform.new, if_pos (by simp [WAVEFORM_LENGTH])]
  rw [show WAVEFORM_LENGTH = 230 from rfl]

theorem analyzeWaveform_longOnesFrames :
    analyzeWaveform longOnesFrames = some (List.replicate WAVEFORM_LENGTH (F.fin 0)) := by
  have hm := monoFrames_longOnesFrames
  have hdiv : (monoFrames longOnesFrames).length / WAVEFORM_LENGTH = 1 := by
    rw [hm]; simp [WAVEFORM_LENGTH]
  have hpeaks : chunkPeaks (monoFrames longOnesFrames) = List.replicate 231 (F.fin 1) := by
    rw [chunkPeaks_div_one hdiv, hm, List.map_replicate]
  have hfm : f_max (List.replicate 231 (F.fin 1)) = F.fin 1 := f_max_replicate_fin 1 230
  have hnorm : normalizePeaks (List.replicate 231 (F.fin 1))
      = List.replicate 231 (F.fin 1) := by
    rw [normalizePeaks, hfm, List.map_replicate]
    norm_num [fdiv]
  rw [analyzeWaveform, if_neg (by rw [hdiv]; norm_num), hpeaks, hnorm]
  rw [Waveform.new, if_neg (by simp [WAVEFORM_LENGTH])]

theorem specChunkPeaks_abs_one (frames : List (ℚ × ℚ)) (m : List ℚ)
    (hm : monoFrames frames = m) (hdiv : m.length / WAVEFORM_LENGTH = 1)
    (hlen : WAVEFORM_LENGTH ≤ m.length)
    (habs : ∀ (i : Nat) (h : i < m.length), |m[i]| = 1) :
    specChunkPeaks frames = List.replicate WAVEFORM_LENGTH 1 := by
  rw [specChunkPeaks, hm, hdiv]
  have hone : ∀ i ∈ List.range WAVEFORM_LENGTH,
      ((m.drop (i * 1)).take 1).foldl (fun acc x => max acc |x|) 0 = 1 := by
    intro i hi
    have hi2 : i < m.length := lt_of_lt_of_le (List.mem_range.1 hi) hlen
    rw [mul_one, List.drop_eq_getElem_cons hi2, List.take_succ_cons, List.take_zero,
      List.foldl_cons, List.foldl_nil, habs i hi2]
    norm_num
  rw [List.map_congr_left hone, List.map_const', List.length_range]

theorem specWaveform_abs_one (frames : List (ℚ × ℚ)) (m : List ℚ)
    (hm : monoFrames frames = m) (hdiv : m.length / WAVEFORM_LENGTH = 1)
    (hlen : WAVEFORM_LENGTH ≤ m.length)
    (habs : ∀ (i : Nat) (h : i < m.length), |m[i]| = 1) :
    specWaveform frames = List.replicate WAVEFORM_LENGTH 1 := by
  have hp := specChunkPeaks_abs_one frames m hm hdiv hlen habs
  rw [specWaveform, hp]
  have hfold : (List.replicate WAVEFORM_LENGTH (1 : ℚ)).foldl max 0 = 1 := by
    have h229 : WAVEFORM_LENGTH = 229 + 1 := by norm_num [WAVEFORM_LENGTH]
    rw [h229, List.replicate_succ, List.foldl_cons]
    norm_num [foldl_max_replicate]
  rw [hfold, List.map_replicate]
  norm_num

theorem specWaveform_cexFrames : specWaveform cexFrames = List.replicate WAVEFORM_LENGTH 1 := by
  refine specWaveform_abs_one cexFrames ((-1 : ℚ) :: List.replicate 229 1)
    monoFrames_cexFrames (by simp [WAVEFORM_LENGTH]) (by simp [WAVEFORM_LENGTH]) ?_
  intro i h
  cases i with
  | zero => simp
  | succ j =>
    rw [List.getElem_cons_succ, List.getElem_replicate]
    norm_num

theorem specWaveform_longOnesFrames :
    specWaveform longOnesFrames = List.replicate WAVEFORM_LENGTH 1 := by
  refine specWaveform_abs_one longOnesFrames (List.replicate 231 1)
    monoFrames_longOnesFrames (by simp [WAVEFORM_LENGTH]) (by simp [WAVEFORM_LENGTH]) ?_
  intro i h
  rw [List.getElem_replicate]
  norm_num

/-!  Claim theorems. -/

/-- C1: the claim states that for every non-empty decodable audio input the
stored waveform has exactly 230 values, each lying in [0,1].  The code
violates the value-range half: the per-chunk fold takes the (signed) maximum
without an absolute value and divides by the global maximum without a sign or
zero guard.  On the decodable input `cexFrames` (230 mono samples, first
sample -1, the rest +1, chunk size 1) the stored waveform is
`-1, 1, 1, …, 1`: it does have exactly 230 values, but its first value -1
lies outside [0,1]. -/
theorem waveform_values_escape_unit_range :
    analyzeWaveform cexFrames = some cexWave
    ∧ cexWave.length = WAVEFORM_LENGTH
    ∧ F.fin (-1) ∈ cexWave
    ∧ inUnitRange (F.fin (-1)) = false := by
  refine ⟨analyzeWaveform_cexFrames, ?_, ?_, ?_⟩
  · simp [cexWave, WAVEFORM_LENGTH]
  · simp [cexWave]
  · simp [inUnitRange]

/-- C3: the claim states that all-silent input yields the all-zero waveform
and that the normalization division is guarded when the global chunk maximum
is zero.  No such guard exists in the code: on 230 silent frames every chunk
maximum is 0, the global maximum is 0, and every value becomes 0/0 = NaN, so
the stored waveform is 230 NaN values.  A silent input shorter than 230 mono
samples does not even reach the division: the chunk size computes to 0 and
`chunks_exact(0)` panics. -/
theorem silent_waveform_nan_bug :
    analyzeWaveform silentFrames = some (List.replicate WAVEFORM_LENGTH F.nan)
    ∧ F.nan ∈ (List.replicate WAVEFORM_LENGTH F.nan : Waveform)
    ∧ inUnitRange F.nan = false
    ∧ analyzeWaveform shortSilentFrames = none := by
  refine ⟨analyzeWaveform_silentFrames, ?_, rfl, analyzeWaveform_shortSilentFrames⟩
  simp [WAVEFORM_LENGTH]

/-- C2 (counterexample): the claimed algorithm — exactly 230 chunks, per-chunk
maximum *absolute* value, division by the global maximum — disagrees with the
code on concrete inputs.  On `cexFrames` the claimed algorithm
(`specWaveform`) yields first value 1 while the code yields -1 (signed
maximum, no absolute value).  On `longOnesFrames` (231 mono samples, chunk
size 1) the code produces 231 chunks, not 230, and the overlong summary is
discarded by `Waveform::new`, storing all zeros where the claimed algorithm
yields all ones. -/
theorem waveform_downsampling_spec_counterexample :
    analyzeWaveform cexFrames = some cexWave
    ∧ cexWave.head? = some (F.fin (-1))
    ∧ (specWaveform cexFrames).head? = some 1
    ∧ (F.fin (-1) == F.fin 1) = false
    ∧ (chunkPeaks (monoFrames longOnesFrames)).length = 231
    ∧ ((231 : Nat) == WAVEFORM_LENGTH) = false
    ∧ analyzeWaveform longOnesFrames = some (List.replicate WAVEFORM_LENGTH (F.fin 0))
    ∧ (specWaveform longOnesFrames).head? = some 1
    ∧ (F.fin (0 : ℚ) == F.fin 1) = false := by
  have h229 : WAVEFORM_LENGTH = 229 + 1 := by norm_num [WAVEFORM_LENGTH]
  have hdivLong : (monoFrames longOnesFrames).length / WAVEFORM_LENGTH = 1 := by
    rw [monoFrames_longOnesFrames]; simp [WAVEFORM_LENGTH]
  refine ⟨analyzeWaveform_cexFrames, ?_, ?_, ?_, ?_, ?_, analyzeWaveform_longOnesFrames, ?_, ?_⟩
  · simp [cexWave]
  · rw [specWaveform_cexFrames, h229, List.replicate_succ, List.head?_cons]
  · rw [beq_eq_false_iff_ne]
    intro h
    have := F.fin.inj h
    norm_num at this
  · rw [chunkPeaks_div_one hdivLong, monoFrames_longOnesFrames]
    simp
  · rw [beq_eq_false_iff_ne]
    simp [WAVEFORM_LENGTH]
  · rw [specWaveform_longOnesFrames, h229, List.replicate_succ, List.head?_cons]
  · rw [beq_eq_false_iff_ne]
    intro h
    have := F.fin.inj h
    norm_num at this

/-- C2 (amended): with n the mono sample count and k = n / 230 the chunk size
(written `num_chunks` in the source), for every input with n ≥ 230 the code
splits the mono sequence into n / k = 230 + (n mod 230) / k contiguous chunks
of common size k, dropping the trailing n mod k samples; this is exactly 230
chunks precisely when n mod 230 < k.  Each chunk value is the chunk's maximum
signed sample (no absolute value) and every value is divided by the global
maximum without a zero guard; when the chunk count is not 230 the computed
summary is discarded by `Waveform::new` and an all-zero waveform is stored
instead. -/
theorem waveform_downsampling_amended (frames : List (ℚ × ℚ))
    (h : WAVEFORM_LENGTH ≤ (monoFrames frames).length) :
    (chunksExact ((monoFrames frames).length / WAVEFORM_LENGTH) (monoFrames frames)).length
        = WAVEFORM_LENGTH
          + ((monoFrames frames).length % WAVEFORM_LENGTH)
            / ((monoFrames frames).length / WAVEFORM_LENGTH)
    ∧ (chunksExact ((monoFrames frames).length / WAVEFORM_LENGTH) (monoFrames frames)).flatten
        = (monoFrames frames).take
            (((monoFrames frames).length / WAVEFORM_LENGTH)
              * ((monoFrames frames).length
                / ((monoFrames frames).length / WAVEFORM_LENGTH)))
    ∧ (∀ c ∈ chunksExact ((monoFrames frames).length / WAVEFORM_LENGTH) (monoFrames frames),
        c.length = (monoFrames frames).length / WAVEFORM_LENGTH)
    ∧ ((monoFrames frames).length % WAVEFORM_LENGTH
          < (monoFrames frames).length / WAVEFORM_LENGTH →
        analyzeWaveform frames = some (normalizePeaks (chunkPeaks (monoFrames frames))))
    ∧ ((monoFrames frames).length / WAVEFORM_LENGTH
          ≤ (monoFrames frames).length % WAVEFORM_LENGTH →
        analyzeWaveform frames = some (List.replicate WAVEFORM_LENGTH (F.fin 0))) := by
  have hW : 0 < WAVEFORM_LENGTH := by norm_num [WAVEFORM_LENGTH]
  have hk : 0 < (monoFrames frames).length / WAVEFORM_LENGTH := by
    refine (Nat.le_div_iff_mul_le hW).2 ?_
    omega
  have hsplit : WAVEFORM_LENGTH * ((monoFrames frames).length / WAVEFORM_LENGTH)
      + (monoFrames frames).length % WAVEFORM_LENGTH = (monoFrames frames).length :=
    Nat.div_add_mod (monoFrames frames).length WAVEFORM_LENGTH
  have key : ∀ (n q r : Nat), 0 < q → n = WAVEFORM_LENGTH * q + r →
      n / q = WAVEFORM_LENGTH + r / q := by
    intro n q r hq hn
    subst hn
    rw [Nat.mul_comm, Nat.mul_add_div hq]
  have hcount : (monoFrames frames).length / ((monoFrames frames).length / WAVEFORM_LENGTH)
      = WAVEFORM_LENGTH
        + ((monoFrames frames).length % WAVEFORM_LENGTH)
          / ((monoFrames frames).length / WAVEFORM_LENGTH) :=
    key (monoFrames frames).length ((monoFrames frames).length / WAVEFORM_LENGTH)
      ((monoFrames frames).length % WAVEFORM_LENGTH) hk hsplit.symm
  have hlenPeaks : (normalizePeaks (chunkPeaks (monoFrames frames))).length
      = WAVEFORM_LENGTH
        + ((monoFrames frames).length % WAVEFORM_LENGTH)
          / ((monoFrames frames).length / WAVEFORM_LENGTH) := by
    rw [normalizePeaks, List.length_map, chunkPeaks, List.length_map,
      length_chunksExact hk, hcount]
  refine ⟨?_, ?_, ?_, ?_, ?_⟩
  · rw [length_chunksExact hk, hcount]
  · exact join_chunksExact hk (monoFrames frames)
  · intro c hc
    exact length_of_mem_chunksExact hc
  · intro hr
    rw [analyzeWaveform, if_neg (by omega)]
    rw [Waveform.new, if_pos (by rw [hlenPeaks, Nat.div_eq_of_lt hr]; omega)]
  · intro hr
    have h1 : 1 ≤ ((monoFrames frames).length % WAVEFORM_LENGTH)
        / ((monoFrames frames).length / WAVEFORM_LENGTH) := by
      refine (Nat.le_div_iff_mul_le hk).2 ?_
      omega
    rw [analyzeWaveform, if_neg (by omega)]
    rw [Waveform.new, if_neg (by rw [hlenPeaks]; omega)]

/-- C2 (witness): the amended theorem applied to `onesFrames`, 230 mono
samples of amplitude 1: chunk size 1, chunk count 230 + 0 / 1 = 230. -/
theorem waveform_downsampling_amended_witness :
    (chunksExact ((monoFrames onesFrames).length / WAVEFORM_LENGTH) (monoFrames onesFrames)).length
      = WAVEFORM_LENGTH
        + ((monoFrames onesFrames).length % WAVEFORM_LENGTH)
          / ((monoFrames onesFrames).length / WAVEFORM_LENGTH) :=
  (waveform_downsampling_amended onesFrames
    (by rw [monoFrames_onesFrames]; simp [WAVEFORM_LENGTH])).1

/-- C4: whenever `Song::update_bytes_from_metadata` fails (the tag-writing
stage or the cover-embedding stage returns an error, for any behavior of the
two external stages and any starting song), the function reports the error
and the song's `audio_bytes` field still holds exactly its pre-call value:
the field is assigned only after both stages have succeeded. -/
theorem updateBytesFromMetadata_preserves_audio_bytes_on_error
    (writeMetadata : Bytes → List (Str × Str) → Option Bytes)
    (writeCover : Bytes → Bytes → Option Bytes) (s : Song)
    (h : (s.updateBytesFromMetadata writeMetadata writeCover).2 = none) :
    (s.updateBytesFromMetadata writeMetadata writeCover).1.audio_bytes = s.audio_bytes := by
  rw [Song.updateBytesFromMetadata] at h ⊢
  simp only [Song.generateMetadataTuples, Song.trimFields] at h ⊢
  cases hwm : writeMetadata s.audio_bytes
      [(strOf ("title"), trimStr s.title), (strOf ("artist"), trimStr s.artist),
        (strOf ("album"), trimStr s.album)] with
  | none => simp [hwm]
  | some b1 =>
    cases hwc : writeCover b1 s.cover_bytes with
    | none => simp [hwm, hwc]
    | some b2 => simp [hwm, hwc] at h

/-- C4 (witness): a failing tag-writing oracle on the default song leaves the
audio bytes untouched. -/
theorem updateBytesFromMetadata_preserves_audio_bytes_on_error_witness :
    (defaultSong.updateBytesFromMetadata (fun _ _ => none) (fun _ _ => none)).2 = none
    ∧ (defaultSong.updateBytesFromMetadata (fun _ _ => none) (fun _ _ => none)).1.audio_bytes
        = defaultSong.audio_bytes :=
  ⟨rfl, updateBytesFromMetadata_preserves_audio_bytes_on_error _ _ _ rfl⟩

/-- C5: when `App::update_state` consumes a job result, a failure result
leaves the displayed song completely unchanged (only the handle is cleared),
a success result installs the delivered song, and in every state the
displayed song changes only if the pending result was a success delivering
exactly that song. -/
theorem updateState_failure_keeps_song (st : DownloaderState) (e : Str) (s : Song) :
    (updateState { st with loading := some (some (Except.error e)) }).song = st.song
    ∧ (updateState { st with loading := some (some (Except.error e)) }).loading = none
    ∧ (updateState { st with loading := some (some (Except.ok s)) }).song = s
    ∧ (updateState { st with loading := some (some (Except.ok s)) }).loading = none
    ∧ ((updateState st).song = st.song
        ∨ ∃ s0, st.loading = some (some (Except.ok s0)) ∧ (updateState st).song = s0) := by
  refine ⟨?_, ?_, ?_, ?_, ?_⟩
  · simp [updateState, isReady]
  · simp [updateState, isReady]
  · simp [updateState, isReady]
  · simp [updateState, isReady]
  · cases hl : st.loading with
    | none => exact Or.inl (by simp [updateState, isReady, hl])
    | some inner =>
      cases inner with
      | none => exact Or.inl (by simp [updateState, isReady, hl])
      | some r =>
        cases r with
        | error e2 => exact Or.inl (by simp [updateState, isReady, hl])
        | ok s0 => exact Or.inr ⟨s0, rfl, by simp [updateState, isReady, hl]⟩

/-- C6: `Origin::from_link` is a total function into the four origins, it
tests the YouTube host fragment before the Soundcloud one, falls back to
`Local` exactly when neither fragment occurs and the string is a path to an
existing file, and returns `Unknown` otherwise. -/
theorem fromLink_total_priority (pathExists : Str → Bool) (link : Str) :
    (Origin.fromLink pathExists link = Origin.YouTube
      ∨ Origin.fromLink pathExists link = Origin.Soundcloud
      ∨ Origin.fromLink pathExists link = Origin.Local
      ∨ Origin.fromLink pathExists link = Origin.Unknown)
    ∧ (strContains link (Origin.linkComponent Origin.YouTube) = true →
        Origin.fromLink pathExists link = Origin.YouTube)
    ∧ (strContains link (Origin.linkComponent Origin.YouTube) = false →
        strContains link (Origin.linkComponent Origin.Soundcloud) = true →
        Origin.fromLink pathExists link = Origin.Soundcloud)
    ∧ (strContains link (Origin.linkComponent Origin.YouTube) = false →
        strContains link (Origin.linkComponent Origin.Soundcloud) = false →
        pathExists link = true → Origin.fromLink pathExists link = Origin.Local)
    ∧ (strContains link (Origin.linkComponent Origin.YouTube) = false →
        strContains link (Origin.linkComponent Origin.Soundcloud) = false →
        pathExists link = false → Origin.fromLink pathExists link = Origin.Unknown) := by
  refine ⟨?_, ?_, ?_, ?_, ?_⟩
  · unfold Origin.fromLink
    split_ifs <;> simp
  · intro h1
    simp [Origin.fromLink, h1]
  · intro h1 h2
    simp [Origin.fromLink, h1, h2]
  · intro h1 h2 h3
    simp [Origin.fromLink, h1, h2, h3]
  · intro h1 h2 h3
    simp [Origin.fromLink, h1, h2, h3]

/-- C6 (witness): a Soundcloud URL with no YouTube fragment and a filesystem
oracle that knows no paths classifies as `Soundcloud`. -/
theorem fromLink_total_priority_witness :
    Origin.fromLink (fun _ => false) (strOf ("https://soundcloud.com/artist/track"))
      = Origin.Soundcloud :=
  (fromLink_total_priority (fun _ => false)
    (strOf ("https://soundcloud.com/artist/track"))).2.2.1 (by decide) (by decide)

/-- C7: the metadata merge never overwrites a populated field with an empty
value — when the document's title, artist and uploader entries all read back
empty (in particular when they are absent or when the document is not an
object), the song's artist is unchanged — and a non-empty uploader entry is
preferred over the artist entry: it becomes the song's artist. -/
theorem updateMetadataFromJson_merge (s : Song) (j : JValue) :
    (jsonRead j (strOf ("title")) = [] → jsonRead j (strOf ("artist")) = [] →
      jsonRead j (strOf ("uploader")) = [] →
      (s.updateMetadataFromJson j).artist = s.artist)
    ∧ (jsonRead j (strOf ("uploader")) ≠ [] →
      (s.updateMetadataFromJson j).artist = jsonRead j (strOf ("uploader"))) := by
  have hta : strOf ("title") ∉ noisyKeys := by decide
  have har : strOf ("artist") ∉ noisyKeys := by decide
  have hup : strOf ("uploader") ∉ noisyKeys := by decide
  cases j with
  | null =>
    exact ⟨fun _ _ _ => rfl, fun h => absurd (by decide) h⟩
  | str s2 =>
    exact ⟨fun _ _ _ => rfl, fun h => absurd rfl h⟩
  | obj fields =>
    have e1 := jsonRead_cleanJson hta (JValue.obj fields)
    have e2 := jsonRead_cleanJson har (JValue.obj fields)
    have e3 := jsonRead_cleanJson hup (JValue.obj fields)
    constructor
    · intro h1 h2 h3
      simp only [Song.updateMetadataFromJson]
      rw [e1, e2, e3, h1, h2, h3]
      simp
    · intro h3
      simp only [Song.updateMetadataFromJson]
      rw [e3]
      have hne : (jsonRead (JValue.obj fields) (strOf ("uploader"))).isEmpty = false := by
        cases hv : jsonRead (JValue.obj fields) (strOf ("uploader")) with
        | nil => exact absurd hv h3
        | cons a t => rfl
      rw [hne]
      simp

/-- C7 (witness): a song with artist "X" merged with a document whose only
entry is a non-empty `uploader` ends up with that uploader as artist. -/
theorem updateMetadataFromJson_merge_witness :
    (mergeSong.updateMetadataFromJson mergeJson).artist = jsonRead mergeJson (strOf ("uploader"))
    ∧ jsonRead mergeJson (strOf ("uploader")) = strOf ("Y")
    ∧ mergeSong.artist = strOf ("X") :=
  ⟨(updateMetadataFromJson_merge mergeSong mergeJson).2 (by decide), by decide, rfl⟩

/-- C8: the filename derived by `Song::write_to_disk` from title "Test Song"
and artist "A/B" is exactly `test_song_ab.mp3`, and for every song the
derived name contains no space, none of the hazardous characters
`/ * : ? " < > |`, and no ASCII uppercase letter. -/
theorem filename_derivation :
    ({ defaultSong with title := strOf ("Test Song"), artist := strOf ("A/B") } : Song).filename
        = strOf ("test_song_ab.mp3")
    ∧ ∀ (s : Song) (c : Nat), c ∈ s.filename →
        c ≠ 32 ∧ [c] ∉ hazardChars ∧ ¬(65 ≤ c ∧ c ≤ 90) := by
  constructor
  · decide
  · intro s c hc
    rw [Song.filename] at hc
    have hrep : c ∈ rustReplace ((s.title ++ [95] ++ s.artist ++ strOf (".mp3")).map asciiLower)
        (strOf (" ")) (strOf ("_")) := mem_removeCharacters hc
    refine ⟨?_, ?_, ?_⟩
    · intro hc32
      subst hc32
      have h1 : strOf (" ") = [32] := by decide
      have h2 : (32 : Nat) ∉ strOf ("_") := by decide
      rw [h1] at hrep
      exact notMem_rustReplace_single h2 hrep
    · intro hmem
      exact notMem_removeCharacters hmem hc
    · rcases mem_rustReplace hrep with hh | hh
      · rcases List.mem_map.1 hh with ⟨x, _, hx⟩
        rw [← hx]
        exact asciiLower_not_upper x
      · have : c = 95 := by
          have h95 : strOf ("_") = [95] := by decide
          rw [h95] at hh
          simpa using hh
        omega

/-- C8 (witness): the general property applied to the concrete song of the
claim at the character `t` (code point 116) of its derived filename. -/
theorem filename_derivation_witness :
    (116 : Nat) ≠ 32 ∧ [(116 : Nat)] ∉ hazardChars ∧ ¬(65 ≤ (116 : Nat) ∧ (116 : Nat) ≤ 90) :=
  filename_derivation.2 { defaultSong with title := strOf ("Test Song"), artist := strOf ("A/B") }
    116 (by decide)

/-- C9: whenever `Song::apply_volume_offset` succeeds, the new audio bytes
are those produced by the re-encoding stage, the stored volume is the one
measured from exactly those new bytes, and the stored decoded frames and
waveform are the ones computed from decoding those same new bytes. -/
theorem applyVolumeOffset_refreshes (applyOffsetTool : Bytes → ℚ → Option Bytes)
    (getAverageVolume : Bytes → Option ℚ) (decode : Bytes → Option (List (ℚ × ℚ)))
    (offset : ℚ) (s s2 : Song)
    (h : Song.applyVolumeOffset applyOffsetTool getAverageVolume decode offset s = some s2) :
    ∃ newBytes frames,
      applyOffsetTool s.audio_bytes offset = some newBytes
      ∧ s2.audio_bytes = newBytes
      ∧ getAverageVolume newBytes = some s2.volume
      ∧ decode newBytes = some frames
      ∧ s2.audio_frames = some frames
      ∧ analyzeWaveform frames = some s2.waveform := by
  rw [Song.applyVolumeOffset, Option.bind_eq_some] at h
  obtain ⟨nb, hao, h⟩ := h
  rw [Option.bind_eq_some] at h
  obtain ⟨s1, hvol, h⟩ := h
  rw [Song.updateCurrentVolume, Option.map_eq_some'] at hvol
  obtain ⟨v, hgv, hs1⟩ := hvol
  rw [Song.updateAudioFrames, Option.bind_eq_some] at h
  obtain ⟨frames, hdc, h⟩ := h
  rw [Option.map_eq_some'] at h
  obtain ⟨w, haw, hs2⟩ := h
  subst hs1
  subst hs2
  exact ⟨nb, frames, hao, rfl, hgv, hdc, rfl, haw⟩

/-- C9 (witness): the theorem applied to concrete oracles (re-encode returns
byte 7, volume detection reports -20 dB, decoding yields `onesFrames`)
starting from the default song. -/
theorem applyVolumeOffset_refreshes_witness :
    ∃ newBytes frames,
      offsetOracle defaultSong.audio_bytes 3 = some newBytes
      ∧ offsetResultSong.audio_bytes = newBytes
      ∧ volumeOracle newBytes = some offsetResultSong.volume
      ∧ decodeOracle newBytes = some frames
      ∧ offsetResultSong.audio_frames = some frames
      ∧ analyzeWaveform frames = some offsetResultSong.waveform :=
  applyVolumeOffset_refreshes offsetOracle volumeOracle decodeOracle 3 defaultSong
    offsetResultSong
    (by
      simp only [Song.applyVolumeOffset, Song.updateCurrentVolume, Song.updateAudioFrames,
        offsetOracle, volumeOracle, decodeOracle, Option.some_bind, Option.map_some',
        analyzeWaveform_onesFrames, Option.some.injEq]
      rfl)

/-- C10: `Waveform::new` is total, always yields exactly 230 values, never
truncates or pads: an input vector of length 230 is stored as is, and an
input of any other length is silently replaced by the all-zero waveform. -/
theorem waveform_new_total (values : List F) :
    (Waveform.new values).length = WAVEFORM_LENGTH
    ∧ (values.length ≠ WAVEFORM_LENGTH →
        Waveform.new values = List.replicate WAVEFORM_LENGTH (F.fin 0))
    ∧ (values.length = WAVEFORM_LENGTH → Waveform.new values = values) := by
  refine ⟨?_, ?_, ?_⟩
  · rw [Waveform.new]
    by_cases hl : values.length = WAVEFORM_LENGTH
    · rw [if_pos hl]; exact hl
    · rw [if_neg hl]; simp
  · intro hl
    rw [Waveform.new, if_neg hl]
  · intro hl
    rw [Waveform.new, if_pos hl]

/-- C10 (witness): the empty vector has the wrong length and is replaced by
the all-zero waveform. -/
theorem waveform_new_total_witness :
    ([] : List F).length ≠ WAVEFORM_LENGTH
    ∧ Waveform.new [] = List.replicate WAVEFORM_LENGTH (F.fin 0) :=
  ⟨by simp [WAVEFORM_LENGTH], (waveform_new_total []).2.1 (by simp [WAVEFORM_LENGTH])⟩

end Songdl
